import Mathlib

/-!
Verification of the two-phase planning-and-execution orchestrator
(planning_service.py, claude_service.py, cli.py, main.py, github_service.py).

The Python code is shallowly embedded: Python strings become `List Char`,
`None`-able values become `Option`, and the external completion / HTTP
backends become explicit oracle parameters.  Each embedded definition is
translated from the source file and function named in its doc comment.
-/

/-! ## Python string primitives -/

/-- Whitespace test used by Python's `str.strip` (modelled on the ASCII
whitespace characters, which is what the code ever strips). -/
def wsB (c : Char) : Bool := c.isWhitespace

/-- Left part of Python `str.strip`: drop leading whitespace. -/
def stripL (l : List Char) : List Char := l.dropWhile wsB

/-- Right part of Python `str.strip`: drop trailing whitespace. -/
def stripR (l : List Char) : List Char := (stripL l.reverse).reverse

/-- Python `str.strip()`. -/
def pyStrip (l : List Char) : List Char := stripR (stripL l)

/-- Python `str.lower()` (character-wise lowercasing). -/
def pyLower (l : List Char) : List Char := l.map Char.toLower

/-- Boolean "is a prefix of" on character lists. -/
def pref : List Char → List Char → Bool
  | [], _ => true
  | _ :: _, [] => false
  | a :: as, b :: bs => a == b && pref as bs

/-- Python's `needle in hay` substring test. -/
def hasSub (needle : List Char) : List Char → Bool
  | [] => pref needle []
  | c :: rest => pref needle (c :: rest) || hasSub needle rest

/-- Python's `hay.find(needle)`: index of the first occurrence, `none` when
absent (Python returns `-1`; callers below only use it after an `in` test
or handle the `-1` case explicitly). -/
def findSub (needle : List Char) : List Char → Option Nat
  | [] => if pref needle [] then some 0 else none
  | c :: rest =>
    if pref needle (c :: rest) then some 0
    else (findSub needle rest).map (· + 1)

/-- Python `text.split("\n")`. -/
def splitNL : List Char → List (List Char)
  | [] => [[]]
  | c :: rest =>
    if c = '\n' then [] :: splitNL rest
    else
      match splitNL rest with
      | [] => [[c]]
      | h :: t => (c :: h) :: t

/-- Python `"\n".join(lines)`. -/
def joinNL : List (List Char) → List Char
  | [] => []
  | [x] => x
  | x :: y :: rest => x ++ '\n' :: joinNL (y :: rest)

/-- The markdown triple-backtick fence marker. -/
def fenceMarker : List Char := ['`', '`', '`']

/-- Python `text.startswith("```")`. -/
def startsFence (l : List Char) : Bool := pref fenceMarker l

/-- `Except` failure test (a Python exception reaching the enclosing
`try`). -/
def exceptErr {α : Type} : Except String α → Bool
  | .error _ => true
  | .ok _ => false

/-! ## JSON values and a model of `json.loads`

The planner parses the completion backend's response with Python's
`json.loads`.  We embed a JSON value type and a recursive-descent parser.
Modelled subset: JSON numbers are restricted to integers (the plan
contract of §6 uses no numbers at all), and `\uXXXX` string escapes are
not supported; both would make the parser fail where CPython succeeds,
and neither occurs in any input considered below. -/

inductive JVal where
  | null : JVal
  | bool : Bool → JVal
  | num : Int → JVal
  | str : List Char → JVal
  | arr : List JVal → JVal
  | obj : List (List Char × JVal) → JVal

/-- JSON insignificant whitespace. -/
def jsonWs (c : Char) : Bool := c == ' ' || c == '\t' || c == '\n' || c == '\r'

/-- Skip insignificant whitespace. -/
def skipWs (s : List Char) : List Char := s.dropWhile jsonWs

/-- The JSON single-character string escapes, as (escape letter, decoded
character) pairs. -/
def escPairs : List (Char × Char) :=
  [('"', '"'), ('\\', '\\'), ('/', '/'), ('n', '\n'),
   ('t', '\t'), ('r', '\r'), ('b', Char.ofNat 8), ('f', Char.ofNat 12)]

/-- JSON string escapes (the `\uXXXX` form is outside the modelled subset). -/
def escChar (e : Char) : Option Char :=
  (escPairs.find? (fun pq => pq.1 == e)).map (·.2)

/-- Parse the body of a JSON string (after the opening quote); returns the
decoded characters and the remaining input after the closing quote. -/
def parseStr : List Char → Except String (List Char × List Char)
  | [] => .error ("unterminated string")
  | '"' :: r => .ok ([], r)
  | '\\' :: r =>
    match r with
    | [] => .error ("truncated escape")
    | e :: r2 =>
      match escChar e with
      | some c =>
        match parseStr r2 with
        | .error err => .error err
        | .ok (cs, rest) => .ok (c :: cs, rest)
      | none => .error ("unsupported escape")
  | c :: r =>
    match parseStr r with
    | .error err => .error err
    | .ok (cs, rest) => .ok (c :: cs, rest)

/-- Digit run to a natural number. -/
def digitsToNat (ds : List Char) : Nat :=
  ds.foldl (fun n c => n * 10 + (c.toNat - ('0').toNat)) 0

/-- Parse a JSON integer (sign already split off by the caller); rejects a
leading zero followed by more digits, and rejects the float forms `.`/`e`,
which are outside the modelled subset. -/
def parseNat' (s : List Char) : Except String (Nat × List Char) :=
  let ds := s.takeWhile Char.isDigit
  let rest := s.dropWhile Char.isDigit
  if ds = [] then .error ("expecting value")
  else if ds.headI = '0' ∧ 1 < ds.length then .error ("invalid number")
  else
    match rest with
    | '.' :: _ => .error ("floats outside modelled subset")
    | 'e' :: _ => .error ("floats outside modelled subset")
    | 'E' :: _ => .error ("floats outside modelled subset")
    | _ => .ok (digitsToNat ds, rest)

mutual

/-- Parse one JSON value; fuel bounds the recursion depth.  The keyword
literals are recognized by prefix test rather than by pattern. -/
def parseVal : Nat → List Char → Except String (JVal × List Char)
  | 0, _ => .error ("fuel exhausted")
  | Nat.succ f, s =>
    let t := skipWs s
    if pref (("null").toList) t then .ok (JVal.null, t.drop 4)
    else if pref (("true").toList) t then .ok (JVal.bool true, t.drop 4)
    else if pref (("false").toList) t then .ok (JVal.bool false, t.drop 5)
    else
      match t with
      | [] => .error ("input ended where a value was required")
      | '"' :: r => (parseStr r).map (fun pr => (JVal.str pr.1, pr.2))
      | '[' :: r =>
        match skipWs r with
        | ']' :: r1 => .ok (JVal.arr [], r1)
        | _ => (parseElems f r).map (fun pr => (JVal.arr pr.1, pr.2))
      | '\x7b' :: r =>
        match skipWs r with
        | '\x7d' :: r1 => .ok (JVal.obj [], r1)
        | _ => (parseMembers f r).map (fun pr => (JVal.obj pr.1, pr.2))
      | '-' :: r => (parseNat' r).map (fun pr => (JVal.num (-(pr.1 : Int)), pr.2))
      | c :: r =>
        if c.isDigit then
          (parseNat' (c :: r)).map (fun pr => (JVal.num (pr.1 : Int), pr.2))
        else .error ("no value starts with this character")

/-- Parse the comma-separated elements of a non-empty JSON array,
consuming the closing bracket. -/
def parseElems : Nat → List Char → Except String (List JVal × List Char)
  | 0, _ => .error ("fuel exhausted")
  | Nat.succ f, s => do
    let (v, r1) ← parseVal f s
    match skipWs r1 with
    | ',' :: r2 => do
      let (vs, r3) ← parseElems f r2
      return (v :: vs, r3)
    | ']' :: r2 => return ([v], r2)
    | _ => .error ("array continues with neither comma nor close")

/-- Parse the members of a non-empty JSON object, consuming the closing
brace. -/
def parseMembers : Nat → List Char → Except String (List (List Char × JVal) × List Char)
  | 0, _ => .error ("fuel exhausted")
  | Nat.succ f, s =>
    match skipWs s with
    | '"' :: r => do
      let (key, r1) ← parseStr r
      match skipWs r1 with
      | ':' :: r2 => do
        let (v, r3) ← parseVal f r2
        match skipWs r3 with
        | ',' :: r4 => do
          let (ms, r5) ← parseMembers f r4
          return ((key, v) :: ms, r5)
        | '\x7d' :: r4 => return ([(key, v)], r4)
        | _ => .error ("object continues with neither comma nor close")
      | _ => .error ("object member lacks a colon")
    | _ => .error ("object member lacks a quoted key")

end

/-- Model of Python `json.loads`: parse one document, then require only
whitespace to remain. -/
def json_loads (s : List Char) : Except String JVal :=
  match parseVal (2 * s.length + 2) s with
  | .error e => .error e
  | .ok (v, rest) => if skipWs rest = [] then .ok v else .error ("Extra data")

/-- Key lookup in a parsed JSON object.  CPython's dict construction lets a
later duplicate key overwrite an earlier one, so the lookup takes the last
matching member. -/
def jLookup (key : List Char) (fields : List (List Char × JVal)) : Option JVal :=
  (fields.reverse.find? (fun kv => kv.1 == key)).map (·.2)

/-! ## Data model (planning_service.py, github_service.py) -/

/-- `ActionType` enum of planning_service.py. -/
inductive ActionType where
  | create : ActionType
  | update : ActionType
  | delete : ActionType
deriving DecidableEq, Repr

/-- `FileAction` dataclass of planning_service.py. -/
structure FileAction where
  action : ActionType
  path : List Char
  reason : List Char
  current_content : Option (List Char) := none
deriving DecidableEq, Repr

/-- A repository-file dict as consumed by the planner (`path` always
present; `sha`/`content` accessed with `.get`, hence optional). -/
structure PyFile where
  path : List Char
  sha : Option (List Char) := none
  content : Option (List Char) := none
deriving DecidableEq, Repr

/-- A repository-file dict as produced by
`GitHubService.get_repository_files` (all three keys always set). -/
structure RepoFile where
  path : List Char
  sha : List Char
  content : List Char
deriving DecidableEq, Repr

/-- A file-change dict handed to `GitHubService.create_commit` (`sha` is
`None` for newly created files). -/
structure FileChange where
  path : List Char
  content : List Char
  sha : Option (List Char) := none
deriving DecidableEq, Repr

/-! ## planning_service.py -/

/-- `ActionType(s)` enum construction: succeeds exactly on the three member
values, otherwise Python raises `ValueError`. -/
def parseKind (s : List Char) : Option ActionType :=
  if s = ("create").toList then some ActionType.create
  else if s = ("update").toList then some ActionType.update
  else if s = ("delete").toList then some ActionType.delete
  else none

/-- One iteration of the conversion loop in
`PlanningService.create_action_plan` (lines 122-138): read
`item["action"]`, lower-case it, construct the enum member, resolve
`current_content` for updates by first path match, and read
`item["path"]`/`item["reason"]`.  Any Python exception on the way
(`TypeError` for a non-dict item, `KeyError` for a missing key,
`AttributeError` for a non-string action, `ValueError` for an unknown
kind) becomes an `Except.error`.  The model requires `path`/`reason` to be
JSON strings; Python would store a non-string value unchecked, a corner no
input below exercises. -/
def convertItem (files : List PyFile) (item : JVal) : Except String FileAction :=
  match item with
  | .obj f =>
    match jLookup (("action").toList) f with
    | some (.str s) =>
      match parseKind (pyLower s) with
      | some k =>
        match jLookup (("path").toList) f, jLookup (("reason").toList) f with
        | some (.str p), some (.str r) =>
          let cc : Option (List Char) :=
            if k = ActionType.update then
              (files.find? (fun fl => fl.path == p)).bind PyFile.content
            else none
          .ok ⟨k, p, r, cc⟩
        | _, _ => .error ("KeyError: path or reason")
      | none => .error ("ValueError: not a valid ActionType")
    | some _ => .error ("AttributeError: no attribute lower")
    | none => .error ("KeyError: action")
  | _ => .error ("TypeError: item is not a dict")

/-- The conversion loop over all plan entries: the loop body runs inside
the planner's single `try`, so the first exception aborts the whole
conversion. -/
def convertItems (files : List PyFile) : List JVal → Except String (List FileAction)
  | [] => .ok []
  | item :: rest =>
    match convertItem files item with
    | .error e => .error e
    | .ok a =>
      match convertItems files rest with
      | .error e => .error e
      | .ok acts => .ok (a :: acts)

/-- `plan_data.get("plan", [])` followed by the conversion loop
(`create_action_plan` lines 120-140).  A non-dict document raises
`AttributeError` at `.get`; a missing `plan` key defaults to `[]` (an
empty action list, not an error); a `plan` value that is a non-empty
string or dict iterates into non-dict items and raises `TypeError`, while
an empty string or dict iterates zero times. -/
def convertPlan (pd : JVal) (files : List PyFile) : Except String (List FileAction) :=
  match pd with
  | .obj fields =>
    match jLookup (("plan").toList) fields with
    | none => .ok []
    | some (.arr items) => convertItems files items
    | some (.str []) => .ok []
    | some (.obj []) => .ok []
    | some _ => .error ("TypeError: plan entries are not dicts")
  | _ => .error ("AttributeError: no attribute get")

/-- `PlanningService._extract_json` (lines 147-159): markdown-fence-aware
JSON extraction.  `text.find(x, start)` returning `-1` makes the Python
slice `text[start:-1]` drop the final character, modelled by `dropLast`. -/
def extract_json (text : List Char) : Except String JVal :=
  let jsonTag : List Char := ('`' :: '`' :: '`' :: ("json").toList)
  let t :=
    if hasSub jsonTag text then
      let start := (findSub jsonTag text).getD 0 + 7
      let rest := text.drop start
      match findSub fenceMarker rest with
      | some e => pyStrip (rest.take e)
      | none => pyStrip rest.dropLast
    else if hasSub fenceMarker text then
      let start := (findSub fenceMarker text).getD 0 + 3
      let rest := text.drop start
      match findSub fenceMarker rest with
      | some e => pyStrip (rest.take e)
      | none => pyStrip rest.dropLast
    else text
  json_loads t

/-- The per-file Update entry of `PlanningService._fallback_plan`
(lines 174-181): emitted only when `file.get("content")` is truthy, i.e.
present and non-empty. -/
def fallbackUpdateOf (prompt : List Char) (f : PyFile) : Option FileAction :=
  match f.content with
  | some c =>
    if c = [] then none
    else some ⟨ActionType.update, f.path,
               ("Update based on prompt: ").toList ++ prompt.take 50, some c⟩
  | none => none

/-- `PlanningService._fallback_plan` (lines 161-183): optional
`Create(README.md)` first, then the loop appending per-file Update
actions. -/
def fallback_plan (prompt : List Char) (files : List PyFile) : List FileAction :=
  let actions0 : List FileAction :=
    if hasSub (("readme").toList) (pyLower prompt) then
      [⟨ActionType.create, ("README.md").toList,
        ("Create README as requested").toList, none⟩]
    else []
  files.foldl
    (fun acc f =>
      match fallbackUpdateOf prompt f with
      | some a => acc ++ [a]
      | none => acc)
    actions0

/-- `PlanningService.create_action_plan` (lines 33-145).  The completion
backend is an oracle: `completion` is the text of `message.content[0]`, or
an error when the API call raises.  The whole body sits in one
`try`/`except`, so a failure at any of the three stages returns the
fallback plan. -/
def create_action_plan (completion : Except String (List Char))
    (prompt : List Char) (files : List PyFile) : List FileAction :=
  match completion with
  | .error _ => fallback_plan prompt files
  | .ok text =>
    match extract_json text with
    | .error _ => fallback_plan prompt files
    | .ok pd =>
      match convertPlan pd files with
      | .error _ => fallback_plan prompt files
      | .ok acts => acts

/-- The plan-context sampling step of `create_action_plan` (lines 47-52):
`repository_files[:8]`, keep those with truthy content, preview
`content[:500]`.  The source interpolates the pairs into the system
prompt; the pair sequence models the selection and truncation. -/
def plan_context_sample (files : List PyFile) : List (List Char × List Char) :=
  (files.take 8).filterMap fun f =>
    match f.content with
    | some c => if c = [] then none else some (f.path, c.take 500)
    | none => none

/-- `PlanningService.generate_file_content` (lines 185-204): dispatch on
the action kind; the content generators (`_generate_new_file`,
`_update_existing_file`, both ending in completion calls) are oracles
returning `none` when they raise; Delete returns `None` without error. -/
def generate_file_content (genC genU : FileAction → Option (List Char))
    (a : FileAction) : Option (List Char) :=
  match a.action with
  | ActionType.create => genC a
  | ActionType.update => genU a
  | ActionType.delete => none

/-- `PlanningService._clean_response` (lines 311-324): strip a leading
markdown fence line and a bare trailing fence line, then trim.  Python's
guard is `if lines and lines[-1].strip() == "```"`; on an empty list
`getLastI` defaults to `[]`, whose strip is not the fence marker, and
`dropLast [] = []` besides, so the truthiness half of the guard is
subsumed by the comparison. -/
def clean_response (text : List Char) : List Char :=
  let content1 :=
    if startsFence text then
      let lines := splitNL text
      let lines1 := if startsFence lines.headI then lines.tail else lines
      let lines2 :=
        if pyStrip lines1.getLastI = fenceMarker then lines1.dropLast else lines1
      joinNL lines2
    else text
  pyStrip content1

/-! ## claude_service.py -/

/-- `ClaudeService._clean_code_response` (lines 75-89); textually the same
algorithm as `PlanningService._clean_response`. -/
def clean_code_response (content : List Char) : List Char :=
  let content1 :=
    if startsFence content then
      let lines := splitNL content
      let lines1 := if startsFence lines.headI then lines.tail else lines
      let lines2 :=
        if pyStrip lines1.getLastI = fenceMarker then lines1.dropLast else lines1
      joinNL lines2
    else content
  pyStrip content1

/-- The project-context sampling step of `ClaudeService.generate_new_file`
(lines 156-160): `project_files[:10]`, keep truthy content, preview
`content[:1000]`. -/
def new_file_context_sample (files : List PyFile) : List (List Char × List Char) :=
  (files.take 10).filterMap fun f =>
    match f.content with
    | some c => if c = [] then none else some (f.path, c.take 1000)
    | none => none

/-! ## github_service.py -/

/-- One entry of the recursive git tree listing. -/
structure TreeItem where
  typ : List Char
  path : List Char
  sha : List Char
deriving DecidableEq, Repr

/-- The contents-API response for one path, as far as
`GitHubService.get_file_content` inspects it: a 404, or a payload whose
base64 body either decodes to UTF-8 text or does not (binary — the
`except` branch; a payload with no `content` key lands in the same
`return None`). -/
inductive FetchResult where
  | notFound : FetchResult
  | payload : Option (List Char) → FetchResult
deriving DecidableEq, Repr

/-- `GitHubService.get_file_content` (lines 65-85): `None` on 404 and on
undecodable (binary) content, the decoded text otherwise. -/
def get_file_content (fetch : List Char → FetchResult) (path : List Char) :
    Option (List Char) :=
  match fetch path with
  | FetchResult.notFound => none
  | FetchResult.payload d => d

/-- `GitHubService.get_repository_files` (lines 38-63): walk the tree,
fetch each blob's content, and append the file only when the content is
truthy (`if content:`). -/
def get_repository_files (fetch : List Char → FetchResult) :
    List TreeItem → List RepoFile
  | [] => []
  | it :: rest =>
    if it.typ = ("blob").toList then
      match get_file_content fetch it.path with
      | some c =>
        if c = [] then get_repository_files fetch rest
        else ⟨it.path, it.sha, c⟩ :: get_repository_files fetch rest
      | none => get_repository_files fetch rest
    else get_repository_files fetch rest

/-- Modelled from the spec: the `listFiles` contract of §6, used only for
comparison against `get_repository_files`.  "recursive listing with
content inlined; entries with undecodable (binary) content report
`content = null` rather than failing". -/
def listFiles_spec (fetch : List Char → FetchResult) (tree : List TreeItem) :
    List PyFile :=
  tree.filterMap fun it =>
    if it.typ = ("blob").toList then
      some ⟨it.path, some it.sha, get_file_content fetch it.path⟩
    else none

/-! ## main.py -/

/-- The generation-and-filter loop of `update_repository` in main.py
(lines 95-110): for each file with truthy content ask the oracle
(`ClaudeService.generate_code_update`, `None` on failure) for updated
content, and append a change only when the result is truthy and differs
from the current content. -/
def update_repo_changes (gen : List Char → List Char → Option (List Char)) :
    List RepoFile → List FileChange
  | [] => []
  | f :: rest =>
    if f.content = [] then update_repo_changes gen rest
    else
      match gen f.path f.content with
      | some u =>
        if u = [] then update_repo_changes gen rest
        else if u = f.content then update_repo_changes gen rest
        else ⟨f.path, u, some f.sha⟩ :: update_repo_changes gen rest
      | none => update_repo_changes gen rest

/-! ## cli.py -/

/-- The Phase-2 execution loop of cli.py `main` (lines 175-206): skip
Delete actions, generate content through
`PlanningService.generate_file_content`, and on truthy content append a
change whose `sha` is looked up in the fetched files for updates. -/
def cli_execute (genC genU : FileAction → Option (List Char))
    (files : List PyFile) : List FileAction → List FileChange
  | [] => []
  | a :: rest =>
    if a.action = ActionType.delete then cli_execute genC genU files rest
    else
      match generate_file_content genC genU a with
      | some c =>
        if c = [] then cli_execute genC genU files rest
        else
          let sha : Option (List Char) :=
            if a.action = ActionType.update then
              (files.find? (fun f => f.path == a.path)).bind PyFile.sha
            else none
          ⟨a.path, c, sha⟩ :: cli_execute genC genU files rest
      | none => cli_execute genC genU files rest

/-- Modelled from the spec: the ContextSampler contract of §4.1, used only
for comparison against the sampling the source performs.  "preserves input
order, takes the first `maxFiles` entries with non-null content, truncates
each content to `maxCharsPerFile` characters". -/
def sample_spec (files : List PyFile) (maxFiles maxChars : Nat) :
    List (List Char × List Char) :=
  ((files.filter (fun f => f.content ≠ none)).take maxFiles).map
    fun f => (f.path, (f.content.getD []).take maxChars)

/-! ## Auxiliary predicates and concrete instances used in the theorems -/

/-- Python truthiness of `file.get("content")`: present and non-empty. -/
def truthyContent (f : PyFile) : Bool :=
  match f.content with
  | some c => !c.isEmpty
  | none => false

/-- A completion response whose plan has one entry with an unrecognized
action kind (`"zap"`) followed by one well-formed `create` entry. -/
def c2text : List Char :=
  ("\x7b\"plan\": [\x7b\"action\": \"zap\", \"path\": \"a\", \"reason\": \"r\"\x7d, \x7b\"action\": \"create\", \"path\": \"b\", \"reason\": \"s\"\x7d]\x7d").toList

/-- A completion response that is valid JSON but lacks the `plan` key. -/
def c3text : List Char := ("\x7b\"summary\": \"hi\"\x7d").toList

/-- One readable repository file, enough for a non-empty fallback plan. -/
def c3files : List PyFile := [⟨("a").toList, none, some (("x").toList)⟩]

/-- Nine files whose first eight have no readable content. -/
def c7files : List PyFile :=
  [⟨("f1").toList, none, none⟩, ⟨("f2").toList, none, none⟩,
   ⟨("f3").toList, none, none⟩, ⟨("f4").toList, none, none⟩,
   ⟨("f5").toList, none, none⟩, ⟨("f6").toList, none, none⟩,
   ⟨("f7").toList, none, none⟩, ⟨("f8").toList, none, none⟩,
   ⟨("i").toList, none, some (("x").toList)⟩]

/-- A fenced block whose interior itself begins with a fence line. -/
def c9x : List Char := ("```\n```a\nfoo").toList

/-- Generator oracle that always reproduces the current content `"X"`. -/
def c4gen : List Char → List Char → Option (List Char) := fun _ _ => some (("X").toList)

/-- One repository file whose content is already `"X"`. -/
def c4files : List RepoFile := [⟨("a").toList, ("s").toList, ("X").toList⟩]

/-- Per-action generator oracle returning `"X"` for every action. -/
def c4cligen : FileAction → Option (List Char) := fun _ => some (("X").toList)

/-- The fetched-files snapshot of the CLI run: `a` with sha `s1` and
content `"X"`. -/
def c4clifiles : List PyFile := [⟨("a").toList, some (("s1").toList), some (("X").toList)⟩]

/-- An Update action whose current content is `"X"`. -/
def c4action : FileAction :=
  ⟨ActionType.update, ("a").toList, ("r").toList, some (("X").toList)⟩

/-- Per-action generator oracle that always succeeds with `"body"`. -/
def c5gen : FileAction → Option (List Char) := fun _ => some (("body").toList)

/-- A plan with one Delete and one Create on distinct paths. -/
def c5actions : List FileAction :=
  [⟨ActionType.delete, ("x").toList, ("r").toList, none⟩,
   ⟨ActionType.create, ("y").toList, ("r2").toList, none⟩]

/-- A plan whose Delete and Create share the path `x`. -/
def c5xactions : List FileAction :=
  [⟨ActionType.delete, ("x").toList, ("r").toList, none⟩,
   ⟨ActionType.create, ("x").toList, ("r2").toList, none⟩]

/-- Create-generator oracle that always fails. -/
def c6genC : FileAction → Option (List Char) := fun _ => none

/-- Update-generator oracle failing on path `a` and succeeding with
`"B2"` elsewhere. -/
def c6genU : FileAction → Option (List Char) :=
  fun a => if a.path = ("a").toList then none else some (("B2").toList)

/-- First queued Update action (its backend call fails). -/
def c6u1 : FileAction := ⟨ActionType.update, ("a").toList, ("r").toList, some (("A").toList)⟩

/-- Second queued Update action (its backend call succeeds). -/
def c6u2 : FileAction := ⟨ActionType.update, ("b").toList, ("r").toList, some (("B").toList)⟩

/-- The fetched-files snapshot of the C6 scenario. -/
def c6files : List PyFile := [⟨("b").toList, some (("s2").toList), some (("B").toList)⟩]

/-- Blob-fetch oracle whose payload never decodes (binary file). -/
def c10fetchB : List Char → FetchResult := fun _ => FetchResult.payload none

/-- A tree with a single binary blob. -/
def c10treeB : List TreeItem := [⟨("blob").toList, ("img.png").toList, ("s").toList⟩]

/-- Blob-fetch oracle that decodes to `"data"` everywhere. -/
def c10fetchG : List Char → FetchResult := fun _ => FetchResult.payload (some (("data").toList))

/-- A tree with a single text blob. -/
def c10treeG : List TreeItem := [⟨("blob").toList, ("a").toList, ("s").toList⟩]

/-- One readable and one unreadable file, for the fallback-plan witness. -/
def c1files : List PyFile :=
  [⟨("a.py").toList, none, some (("x").toList)⟩, ⟨("b.bin").toList, none, none⟩]

/-! ## Basic lemmas about the string primitives -/

theorem dropWhile_self_idem (p : Char → Bool) (l : List Char) :
    (l.dropWhile p).dropWhile p = l.dropWhile p := by
  induction l with
  | nil => rfl
  | cons c r ih =>
    by_cases h : p c
    · simp [List.dropWhile, h, ih]
    · simp [List.dropWhile, h]

theorem stripL_idem (l : List Char) : stripL (stripL l) = stripL l :=
  dropWhile_self_idem wsB l

theorem stripR_idem (l : List Char) : stripR (stripR l) = stripR l := by
  unfold stripR
  rw [List.reverse_reverse, stripL_idem]

theorem dropWhile_getLast? (p : Char → Bool) (l : List Char)
    (h : l.dropWhile p ≠ []) : (l.dropWhile p).getLast? = l.getLast? := by
  induction l with
  | nil => simp at h
  | cons c r ih =>
    by_cases hc : p c
    · have hdw : (c :: r).dropWhile p = r.dropWhile p := by
        simp [List.dropWhile, hc]
      rw [hdw] at h ⊢
      have hr : r ≠ [] := by
        intro he; rw [he] at h; simp [List.dropWhile] at h
      rw [ih h]
      obtain ⟨b, t, rfl⟩ := List.exists_cons_of_ne_nil hr
      exact List.getLast?_cons_cons.symm
    · simp [List.dropWhile, hc]

theorem length_dropWhile_le' (p : Char → Bool) (l : List Char) :
    (l.dropWhile p).length ≤ l.length := by
  induction l with
  | nil => simp
  | cons c r ih =>
    by_cases hc : p c
    · simp only [List.dropWhile, hc]
      exact le_trans ih (Nat.le_succ _)
    · simp [List.dropWhile, hc]

theorem stripL_head_not_ws (l : List Char) (c : Char) (t : List Char)
    (h : stripL l = c :: t) : wsB c = false := by
  induction l with
  | nil => simp [stripL, List.dropWhile] at h
  | cons a r ih =>
    by_cases ha : wsB a
    · have : stripL (a :: r) = stripL r := by simp [stripL, List.dropWhile, ha]
      rw [this] at h
      exact ih h
    · have : stripL (a :: r) = a :: r := by simp [stripL, List.dropWhile, ha]
      rw [this] at h
      cases h
      exact Bool.of_not_eq_true ha

theorem stripL_of_head_not_ws (c : Char) (t : List Char) (hc : wsB c = false) :
    stripL (c :: t) = c :: t := by
  simp [stripL, List.dropWhile, hc]

theorem stripL_stripR_fix (m : List Char) (hmm : stripL m = m) :
    stripL (stripR m) = stripR m := by
  cases hsr : stripR m with
  | nil => simp [stripL, List.dropWhile]
  | cons c t =>
    have hc : wsB c = false := by
      -- `c` is the last character of `stripL m.reverse`, hence the last of
      -- `m.reverse`, hence the head of `m`, which `stripL` left in place.
      have h1 : (stripL m.reverse).reverse = c :: t := hsr
      have h1' : stripL m.reverse = (c :: t).reverse := by
        rw [← h1, List.reverse_reverse]
      have h2 : stripL m.reverse ≠ [] := by
        rw [h1']; simp
      have h3 : (stripL m.reverse).getLast? = m.reverse.getLast? :=
        dropWhile_getLast? wsB m.reverse h2
      have h4 : (stripL m.reverse).getLast? = some c := by
        rw [h1', List.getLast?_reverse]; rfl
      have h5 : m.reverse.getLast? = m.head? := List.getLast?_reverse m
      have h6 : m.head? = some c := by rw [← h5, ← h3, h4]
      obtain ⟨m', hm'⟩ : ∃ m', m = c :: m' := by
        cases m with
        | nil => simp at h6
        | cons x xs =>
          have hx : x = c := by simpa using h6
          exact ⟨xs, by rw [hx]⟩
      by_contra hws
      have hws' : wsB c = true := by
        cases hw : wsB c
        · exact absurd hw hws
        · rfl
      rw [hm'] at hmm
      have hstep : stripL (c :: m') = stripL m' := by
        simp [stripL, List.dropWhile, hws']
      rw [hstep] at hmm
      have hlen := length_dropWhile_le' wsB m'
      rw [show List.dropWhile wsB m' = stripL m' from rfl, hmm] at hlen
      simp at hlen
    exact stripL_of_head_not_ws c t hc

theorem pyStrip_idem (l : List Char) : pyStrip (pyStrip l) = pyStrip l := by
  unfold pyStrip
  have h : stripL (stripR (stripL l)) = stripR (stripL l) :=
    stripL_stripR_fix (stripL l) (stripL_idem l)
  rw [h, stripR_idem]

theorem splitNL_ne_nil (l : List Char) : splitNL l ≠ [] := by
  cases l with
  | nil => simp [splitNL]
  | cons c rest =>
    by_cases h : c = '\n'
    · simp [splitNL, h]
    · simp only [splitNL, h, if_false]
      cases splitNL rest <;> simp

theorem splitNL_headI_eq_takeWhile (l : List Char) :
    (splitNL l).headI = l.takeWhile (fun c => c != '\n') := by
  induction l with
  | nil => rfl
  | cons c rest ih =>
    by_cases h : c = '\n'
    · simp [splitNL, h, List.takeWhile]
    · have hb : (c != '\n') = true := by simpa using h
      simp only [splitNL, h, if_false, List.takeWhile, hb]
      cases hs : splitNL rest with
      | nil => exact absurd hs (splitNL_ne_nil rest)
      | cons hd tl =>
        rw [hs] at ih
        simp at ih
        simp [ih]

theorem pref_takeWhile (p : Char → Bool) (n : List Char) :
    ∀ l : List Char, pref n l = true → (∀ c ∈ n, p c = true) →
      pref n (l.takeWhile p) = true := by
  induction n with
  | nil => intro l _ _; rfl
  | cons a as ih =>
    intro l h hall
    cases l with
    | nil => simp [pref] at h
    | cons b bs =>
      simp only [pref, Bool.and_eq_true, beq_iff_eq] at h
      obtain ⟨hab, hpre⟩ := h
      have hpb : p b = true := by
        rw [← hab]; exact hall a (List.mem_cons_self a as)
      simp only [List.takeWhile, hpb, pref, Bool.and_eq_true, beq_iff_eq]
      exact ⟨hab, ih bs hpre (fun c hc => hall c (List.mem_cons_of_mem a hc))⟩

theorem startsFence_headI (l : List Char) (h : startsFence l = true) :
    startsFence (splitNL l).headI = true := by
  rw [splitNL_headI_eq_takeWhile]
  unfold startsFence at h ⊢
  exact pref_takeWhile _ fenceMarker l h (by decide)

theorem startsFence_hasSub (l : List Char) (h : startsFence l = true) :
    hasSub fenceMarker l = true := by
  cases l with
  | nil => simp [startsFence, fenceMarker, pref] at h
  | cons c rest =>
    simp only [hasSub, Bool.or_eq_true]
    exact Or.inl h

theorem tail_getLast? {α : Type} (x y : α) (t : List α) :
    (x :: y :: t).tail.getLast? = (x :: y :: t).getLast? := by
  simp [List.getLast?_cons_cons]

/-! ## Helper lemmas about the embedded services -/

theorem clean_response_eq (t : List Char) :
    clean_response t = clean_code_response t := rfl

theorem fallback_foldl (p : List Char) (files : List PyFile) :
    ∀ init : List FileAction,
      files.foldl
        (fun acc f =>
          match fallbackUpdateOf p f with
          | some a => acc ++ [a]
          | none => acc)
        init
      = init ++ files.filterMap (fallbackUpdateOf p) := by
  induction files with
  | nil => intro init; simp
  | cons f rest ih =>
    intro init
    simp only [List.foldl_cons, List.filterMap_cons]
    cases h : fallbackUpdateOf p f with
    | none => simp only [h]; exact ih init
    | some a =>
      simp only [h]
      rw [ih (init ++ [a])]
      simp

theorem fallback_plan_eq (p : List Char) (files : List PyFile) :
    fallback_plan p files
      = (if hasSub (("readme").toList) (pyLower p) then
           [⟨ActionType.create, ("README.md").toList,
             ("Create README as requested").toList, none⟩]
         else [])
        ++ files.filterMap (fallbackUpdateOf p) := by
  unfold fallback_plan
  exact fallback_foldl p files _

theorem fallback_update_count (p : List Char) (files : List PyFile) :
    (files.filterMap (fallbackUpdateOf p)).length
      = (files.filter truthyContent).length := by
  induction files with
  | nil => rfl
  | cons f rest ih =>
    simp only [List.filterMap_cons, List.filter_cons]
    cases hc : f.content with
    | none =>
      have h1 : fallbackUpdateOf p f = none := by simp [fallbackUpdateOf, hc]
      have h2 : truthyContent f = false := by simp [truthyContent, hc]
      simp [h1, h2, ih]
    | some c =>
      by_cases he : c = []
      · have h1 : fallbackUpdateOf p f = none := by simp [fallbackUpdateOf, hc, he]
        have h2 : truthyContent f = false := by simp [truthyContent, hc, he]
        simp [h1, h2, ih]
      · have h1 : fallbackUpdateOf p f
            = some ⟨ActionType.update, f.path,
                    ("Update based on prompt: ").toList ++ p.take 50, some c⟩ := by
          simp [fallbackUpdateOf, hc, he]
        have h2 : truthyContent f = true := by simp [truthyContent, hc, he]
        simp [h1, h2, ih]

theorem fallback_update_action (p : List Char) (files : List PyFile)
    (a : FileAction) (ha : a ∈ files.filterMap (fallbackUpdateOf p)) :
    a.action = ActionType.update := by
  induction files with
  | nil => simp at ha
  | cons f rest ih =>
    simp only [List.filterMap_cons] at ha
    cases hc : fallbackUpdateOf p f with
    | none => rw [hc] at ha; exact ih ha
    | some b =>
      rw [hc] at ha
      rcases List.mem_cons.mp ha with h | h
      · subst h
        unfold fallbackUpdateOf at hc
        cases hfc : f.content with
        | none => rw [hfc] at hc; simp at hc
        | some c =>
          rw [hfc] at hc
          by_cases he : c = []
          · simp [he] at hc
          · simp [he] at hc
            rw [← hc]
      · exact ih h

theorem convertItems_fail (files : List PyFile) (bad : JVal)
    (hbad : exceptErr (convertItem files bad) = true) :
    ∀ pre post : List JVal,
      exceptErr (convertItems files (pre ++ bad :: post)) = true := by
  intro pre
  induction pre with
  | nil =>
    intro post
    simp only [List.nil_append, convertItems]
    cases h : convertItem files bad with
    | error e => simp [exceptErr]
    | ok a => rw [h] at hbad; simp [exceptErr] at hbad
  | cons x xs ih =>
    intro post
    simp only [List.cons_append, convertItems]
    cases hx : convertItem files x with
    | error e => simp [exceptErr]
    | ok a =>
      cases hrest : convertItems files (xs ++ bad :: post) with
      | error e => simp [exceptErr]
      | ok acts =>
        have := ih post
        rw [hrest] at this
        simp [exceptErr] at this

theorem cli_execute_from_action (genC genU : FileAction → Option (List Char))
    (files : List PyFile) :
    ∀ (actions : List FileAction) (c : FileChange),
      c ∈ cli_execute genC genU files actions →
      ∃ a, a ∈ actions ∧ a.action ≠ ActionType.delete ∧ c.path = a.path := by
  intro actions
  induction actions with
  | nil => intro c hc; simp [cli_execute] at hc
  | cons a rest ih =>
    intro c hc
    by_cases hd : a.action = ActionType.delete
    · rw [show cli_execute genC genU files (a :: rest)
            = cli_execute genC genU files rest by simp [cli_execute, hd]] at hc
      obtain ⟨b, hb, hbd, hbp⟩ := ih c hc
      exact ⟨b, List.mem_cons_of_mem a hb, hbd, hbp⟩
    · cases hg : generate_file_content genC genU a with
      | none =>
        rw [show cli_execute genC genU files (a :: rest)
              = cli_execute genC genU files rest by simp [cli_execute, hd, hg]] at hc
        obtain ⟨b, hb, hbd, hbp⟩ := ih c hc
        exact ⟨b, List.mem_cons_of_mem a hb, hbd, hbp⟩
      | some cc =>
        by_cases hcc : cc = []
        · rw [show cli_execute genC genU files (a :: rest)
                = cli_execute genC genU files rest by
              simp [cli_execute, hd, hg, hcc]] at hc
          obtain ⟨b, hb, hbd, hbp⟩ := ih c hc
          exact ⟨b, List.mem_cons_of_mem a hb, hbd, hbp⟩
        · rw [show cli_execute genC genU files (a :: rest)
                = ⟨a.path, cc,
                   if a.action = ActionType.update then
                     (files.find? (fun f => f.path == a.path)).bind PyFile.sha
                   else none⟩ :: cli_execute genC genU files rest by
              simp [cli_execute, hd, hg, hcc]] at hc
          rcases List.mem_cons.mp hc with h | h
          · exact ⟨a, List.mem_cons_self a rest, hd, by rw [h]⟩
          · obtain ⟨b, hb, hbd, hbp⟩ := ih c h
            exact ⟨b, List.mem_cons_of_mem a hb, hbd, hbp⟩

theorem update_changes_paths (gen : List Char → List Char → Option (List Char)) :
    ∀ (files : List RepoFile) (c : FileChange),
      c ∈ update_repo_changes gen files → c.path ∈ files.map RepoFile.path := by
  intro files
  induction files with
  | nil => intro c hc; simp [update_repo_changes] at hc
  | cons f rest ih =>
    intro c hc
    by_cases hfc : f.content = []
    · rw [show update_repo_changes gen (f :: rest) = update_repo_changes gen rest by
        simp [update_repo_changes, hfc]] at hc
      exact List.mem_cons_of_mem _ (ih c hc)
    · cases hg : gen f.path f.content with
      | none =>
        rw [show update_repo_changes gen (f :: rest) = update_repo_changes gen rest by
          simp [update_repo_changes, hfc, hg]] at hc
        exact List.mem_cons_of_mem _ (ih c hc)
      | some u =>
        by_cases hu : u = []
        · rw [show update_repo_changes gen (f :: rest) = update_repo_changes gen rest by
            simp [update_repo_changes, hfc, hg, hu]] at hc
          exact List.mem_cons_of_mem _ (ih c hc)
        · by_cases hequ : u = f.content
          · rw [show update_repo_changes gen (f :: rest) = update_repo_changes gen rest by
              simp [update_repo_changes, hfc, hg, hu, hequ]] at hc
            exact List.mem_cons_of_mem _ (ih c hc)
          · rw [show update_repo_changes gen (f :: rest)
                  = ⟨f.path, u, some f.sha⟩ :: update_repo_changes gen rest by
                simp [update_repo_changes, hfc, hg, hu, hequ]] at hc
            rcases List.mem_cons.mp hc with h | h
            · rw [h]; exact List.mem_cons_self _ _
            · exact List.mem_cons_of_mem _ (ih c h)

theorem sample_filterMap_eq (k : Nat) :
    ∀ l : List PyFile,
      (l.filterMap fun f =>
        match f.content with
        | some c => if c = [] then none else some (f.path, c.take k)
        | none => none)
      = (l.filter truthyContent).map
          (fun f => (f.path, (f.content.getD []).take k)) := by
  intro l
  induction l with
  | nil => rfl
  | cons f rest ih =>
    simp only [List.filterMap_cons, List.filter_cons]
    cases hc : f.content with
    | none =>
      have h2 : truthyContent f = false := by simp [truthyContent, hc]
      simp [h2, ih]
    | some c =>
      by_cases he : c = []
      · have h2 : truthyContent f = false := by simp [truthyContent, hc, he]
        simp [h2, he, ih]
      · have h2 : truthyContent f = true := by simp [truthyContent, hc, he]
        simp [h2, he, ih, hc]

theorem getLastI_cons_cons (x y : List Char) (t : List (List Char)) :
    (x :: y :: t).getLastI = (y :: t).getLastI := by
  rw [List.getLastI_eq_getLast?, List.getLastI_eq_getLast?, List.getLast?_cons_cons]

theorem getLast?_eq_getLastI (l : List (List Char)) (h : l ≠ []) :
    l.getLast? = some l.getLastI := by
  rw [List.getLastI_eq_getLast?]
  cases hl : l.getLast? with
  | none =>
    obtain ⟨a, t, rfl⟩ := List.exists_cons_of_ne_nil h
    cases t with
    | nil => simp at hl
    | cons b t' => rw [List.getLast?_cons_cons] at hl; simp [List.getLast?_eq_none_iff] at hl
  | some a => rfl

theorem clean_fixed (x : List Char) :
    pyStrip (clean_code_response x) = clean_code_response x := by
  simp only [clean_code_response]
  exact pyStrip_idem _

theorem clean_of_not_fence (y : List Char) (h : startsFence y = false) :
    clean_code_response y = pyStrip y := by
  simp [clean_code_response, h]

/-! ## Claim C1 -/

/-- C1, counterexample.  The claim says the fallback plan contains exactly
one Update action per input file with non-null content.  A file whose
content is the empty string has non-null content, yet
`_fallback_plan`'s truthiness test `if file.get("content"):` skips it:
with one such file (and a prompt not mentioning "readme") the fallback
plan is empty where the claim requires one Update action. -/
theorem c1_counterexample :
    create_action_plan (Except.error "API failure") (("x").toList)
        [⟨("a").toList, none, some []⟩] = []
    ∧ (([⟨("a").toList, none, some []⟩] : List PyFile).filter
        (fun f => f.content.isSome)).length = 1 := by
  exact ⟨rfl, by decide⟩

/-- C1, amended: when invoking the completion capability or extracting the
plan fails, `create_action_plan` returns the fallback plan (it never
raises); the fallback contains a Create action for README.md if and only
if the instruction contains "readme" case-insensitively, prepended first,
followed by exactly one Update action per input file with non-null,
non-empty content, each Update's reason synthesized from the first 50
characters of the instruction. -/
theorem c1_amended (completion : Except String (List Char))
    (prompt : List Char) (files : List PyFile)
    (hfail : exceptErr (Except.bind completion extract_json) = true) :
    create_action_plan completion prompt files = fallback_plan prompt files
    ∧ fallback_plan prompt files
        = (if hasSub (("readme").toList) (pyLower prompt) then
             [⟨ActionType.create, ("README.md").toList,
               ("Create README as requested").toList, none⟩]
           else [])
          ++ files.filterMap (fallbackUpdateOf prompt)
    ∧ (files.filterMap (fallbackUpdateOf prompt)).length
        = (files.filter truthyContent).length
    ∧ ∀ a ∈ files.filterMap (fallbackUpdateOf prompt),
        a.action = ActionType.update := by
  refine ⟨?_, fallback_plan_eq prompt files, fallback_update_count prompt files,
          fun a ha => fallback_update_action prompt files a ha⟩
  cases completion with
  | error e => rfl
  | ok text =>
    cases hx : extract_json text with
    | error e => simp [create_action_plan, hx]
    | ok v =>
      rw [show Except.bind (Except.ok text) extract_json = extract_json text from rfl,
          hx] at hfail
      simp [exceptErr] at hfail

/-- C1, witness at a concrete failing completion, a prompt containing
"ReadMe", one readable and one unreadable file. -/
theorem c1_witness :
    create_action_plan (Except.error "API failure")
        (("Please write a ReadMe").toList) c1files
      = fallback_plan (("Please write a ReadMe").toList) c1files :=
  (c1_amended (Except.error "API failure") (("Please write a ReadMe").toList)
    c1files (by decide)).1

/-! ## Claim C2 -/

/-- C2, counterexample.  The claim says an unrecognized action kind fails
only that entry while the rest of the plan is converted.  In the source
the `ActionType(...)` `ValueError` is caught by `create_action_plan`'s
single `try`, discarding the whole plan: for a response whose plan has a
`"zap"` entry followed by a well-formed `"create"` entry (empty file list,
prompt `"z"`), the result is the (empty) fallback plan, not the one-entry
plan `[Create b]` the claim requires. -/
theorem c2_counterexample :
    create_action_plan (Except.ok c2text) (("z").toList) [] = []
    ∧ create_action_plan (Except.ok c2text) (("z").toList) []
        ≠ [⟨ActionType.create, ("b").toList, ("s").toList, none⟩] := by
  exact ⟨rfl, by decide⟩

/-- C2, amended: a plan entry whose action kind does not normalize to the
three-member enum raises `ValueError` inside the planner's single `try`,
so the whole model plan (recognizable entries included) is discarded and
`create_action_plan` returns the fallback plan. -/
theorem c2_amended (prompt : List Char) (files : List PyFile)
    (text : List Char) (fields : List (List Char × JVal))
    (pre post : List JVal) (itemF : List (List Char × JVal)) (s : List Char)
    (hex : extract_json text = Except.ok (JVal.obj fields))
    (hplan : jLookup (("plan").toList) fields
        = some (JVal.arr (pre ++ JVal.obj itemF :: post)))
    (haction : jLookup (("action").toList) itemF = some (JVal.str s))
    (hkind : parseKind (pyLower s) = none) :
    create_action_plan (Except.ok text) prompt files
      = fallback_plan prompt files := by
  have haction' : jLookup (['a', 'c', 't', 'i', 'o', 'n']) itemF
      = some (JVal.str s) := haction
  have hitem : exceptErr (convertItem files (JVal.obj itemF)) = true := by
    simp [convertItem, haction', hkind, exceptErr]
  have hconv : exceptErr (convertPlan (JVal.obj fields) files) = true := by
    simp only [convertPlan]
    rw [hplan]
    exact convertItems_fail files (JVal.obj itemF) hitem pre post
  cases hc : convertPlan (JVal.obj fields) files with
  | error e => simp [create_action_plan, hex, hc]
  | ok acts => rw [hc] at hconv; simp [exceptErr] at hconv

/-- C2, witness: the amended behavior at the concrete two-entry plan. -/
theorem c2_witness :
    create_action_plan (Except.ok c2text) (("z").toList) []
      = fallback_plan (("z").toList) [] :=
  c2_amended (("z").toList) [] c2text
    [((("plan").toList),
      JVal.arr
        [JVal.obj [((("action").toList), JVal.str (("zap").toList)),
                   ((("path").toList), JVal.str (("a").toList)),
                   ((("reason").toList), JVal.str (("r").toList))],
         JVal.obj [((("action").toList), JVal.str (("create").toList)),
                   ((("path").toList), JVal.str (("b").toList)),
                   ((("reason").toList), JVal.str (("s").toList))]])]
    []
    [JVal.obj [((("action").toList), JVal.str (("create").toList)),
               ((("path").toList), JVal.str (("b").toList)),
               ((("reason").toList), JVal.str (("s").toList))]]
    [((("action").toList), JVal.str (("zap").toList)),
     ((("path").toList), JVal.str (("a").toList)),
     ((("reason").toList), JVal.str (("r").toList))]
    (("zap").toList) rfl rfl rfl rfl

/-! ## Claim C3 -/

/-- C3, counterexample.  The claim says a parsed document that does not
match the `{plan: [...], summary?}` shape fails with `MalformedPlanError`
and triggers the fallback.  `_extract_json` performs no shape validation:
for the valid JSON object `{"summary": "hi"}` the planner's
`plan_data.get("plan", [])` yields `[]`, so the result is the empty plan —
not the (non-empty) fallback over one readable file, and no error. -/
theorem c3_counterexample :
    create_action_plan (Except.ok c3text) (("fix").toList) c3files = []
    ∧ fallback_plan (("fix").toList) c3files ≠ [] := by
  exact ⟨rfl, by decide⟩

/-- C3, amended: extraction fails exactly when JSON parsing fails, and such
a failure triggers the fallback plan rather than propagating; a
successfully parsed JSON object lacking the `plan` key is not rejected at
extraction — it yields the empty plan (not the fallback). -/
theorem c3_amended (text prompt : List Char) (files : List PyFile) :
    (exceptErr (extract_json text) = true →
      create_action_plan (Except.ok text) prompt files
        = fallback_plan prompt files)
    ∧ (∀ fields : List (List Char × JVal),
        extract_json text = Except.ok (JVal.obj fields) →
        jLookup (("plan").toList) fields = none →
        create_action_plan (Except.ok text) prompt files = []) := by
  constructor
  · intro hfail
    cases hx : extract_json text with
    | error e => simp [create_action_plan, hx]
    | ok v => rw [hx] at hfail; simp [exceptErr] at hfail
  · intro fields hx hplan
    have hplan' : jLookup (['p', 'l', 'a', 'n']) fields = none := hplan
    simp [create_action_plan, hx, convertPlan, hplan']

/-- C3, witness: a parse failure (`"oops"`) falls back; the planless object
`{"summary": "hi"}` yields the empty plan. -/
theorem c3_witness :
    create_action_plan (Except.ok (("oops").toList)) (("fix").toList) c3files
      = fallback_plan (("fix").toList) c3files
    ∧ create_action_plan (Except.ok c3text) (("fix").toList) c3files = [] :=
  ⟨(c3_amended (("oops").toList) (("fix").toList) c3files).1 rfl,
   (c3_amended c3text (("fix").toList) c3files).2
     [((("summary").toList), JVal.str (("hi").toList))] rfl rfl⟩

/-! ## Claim C4 -/

/-- C4, counterexample.  The claim says the caller drops an
Update-generated FileChange whose content is byte-identical to
`currentContent` before committing.  The two-phase CLI flow (cli.py lines
183-206) appends every truthy generated content without comparing it to
the current content: for an Update of `a` whose generated content equals
the current content `"X"`, the committed set still contains the change. -/
theorem c4_counterexample :
    cli_execute c4cligen c4cligen c4clifiles [c4action]
      = [⟨("a").toList, ("X").toList, some (("s1").toList)⟩]
    ∧ c4action.current_content = some (("X").toList) := by
  exact ⟨rfl, rfl⟩

/-- C4, amended: the idempotence filter exists only in the single-phase API
flow — `update_repository` (main.py lines 95-110) drops a generated
content equal to the file's current content, so under distinct paths that
file never reaches the committed set; the two-phase CLI flow applies no
such filter. -/
theorem c4_amended (gen : List Char → List Char → Option (List Char))
    (files : List RepoFile) (f : RepoFile)
    (hmem : f ∈ files)
    (hgen : gen f.path f.content = some f.content)
    (hnodup : (files.map RepoFile.path).Nodup) :
    f.path ∉ (update_repo_changes gen files).map FileChange.path := by
  induction files with
  | nil => simp at hmem
  | cons g rest ih =>
    have hnd1 : g.path ∉ rest.map RepoFile.path := (List.nodup_cons.mp hnodup).1
    have hnd2 : (rest.map RepoFile.path).Nodup := (List.nodup_cons.mp hnodup).2
    intro hin
    rcases List.mem_cons.mp hmem with hfg | hfr
    · -- `f` is the head: its own change is filtered out, and no other file
      -- shares its path.
      subst hfg
      have hsub : ∀ c ∈ update_repo_changes gen (f :: rest),
          c.path ∈ (f :: rest).map RepoFile.path :=
        fun c hc => update_changes_paths gen (f :: rest) c hc
      obtain ⟨c, hc, hcp⟩ := List.mem_map.mp hin
      have hrec : c ∈ update_repo_changes gen rest := by
        by_cases hfc : f.content = []
        · rw [show update_repo_changes gen (f :: rest)
                = update_repo_changes gen rest by
              simp [update_repo_changes, hfc]] at hc
          exact hc
        · rw [show update_repo_changes gen (f :: rest)
                = update_repo_changes gen rest by
              simp [update_repo_changes, hfc, hgen]] at hc
          exact hc
      have : c.path ∈ rest.map RepoFile.path :=
        update_changes_paths gen rest c hrec
      rw [hcp] at this
      exact hnd1 this
    · -- `f` is in the tail: the head's change (if any) has a different
      -- path, and the tail case is the induction hypothesis.
      obtain ⟨c, hc, hcp⟩ := List.mem_map.mp hin
      have hfp : f.path ∈ rest.map RepoFile.path :=
        List.mem_map.mpr ⟨f, hfr, rfl⟩
      have hgf : g.path ≠ f.path := fun he => hnd1 (he ▸ hfp)
      have hrec : c ∈ update_repo_changes gen rest := by
        by_cases hfc : g.content = []
        · rw [show update_repo_changes gen (g :: rest)
                = update_repo_changes gen rest by
              simp [update_repo_changes, hfc]] at hc
          exact hc
        · cases hg : gen g.path g.content with
          | none =>
            rw [show update_repo_changes gen (g :: rest)
                  = update_repo_changes gen rest by
                simp [update_repo_changes, hfc, hg]] at hc
            exact hc
          | some u =>
            by_cases hu : u = []
            · rw [show update_repo_changes gen (g :: rest)
                    = update_repo_changes gen rest by
                  simp [update_repo_changes, hfc, hg, hu]] at hc
              exact hc
            · by_cases hequ : u = g.content
              · rw [show update_repo_changes gen (g :: rest)
                      = update_repo_changes gen rest by
                    simp [update_repo_changes, hfc, hg, hu, hequ]] at hc
                exact hc
              · rw [show update_repo_changes gen (g :: rest)
                      = ⟨g.path, u, some g.sha⟩ :: update_repo_changes gen rest by
                    simp [update_repo_changes, hfc, hg, hu, hequ]] at hc
                rcases List.mem_cons.mp hc with h | h
                · rw [h] at hcp
                  exact absurd hcp hgf
                · exact h
      exact ih hfr hnd2 (List.mem_map.mpr ⟨c, hrec, hcp⟩)

/-- C4, witness: the API flow drops the no-op update of `a`. -/
theorem c4_witness :
    ("a").toList ∉ (update_repo_changes c4gen c4files).map FileChange.path :=
  c4_amended c4gen c4files ⟨("a").toList, ("s").toList, ("X").toList⟩
    (by decide) rfl (by decide)

/-! ## Claim C5 -/

/-- C5, counterexample.  The claim says the output paths never include any
Delete action's path.  A FileChange never *originates* from a Delete, but
a Create sharing the Delete's path puts that path in the output: for the
plan `[Delete x, Create x]` with a succeeding generator the output paths
are exactly `[x]`. -/
theorem c5_counterexample :
    cli_execute c5gen c5gen [] c5xactions
      = [⟨("x").toList, ("body").toList, none⟩]
    ∧ (c5xactions.filter (fun a => a.action == ActionType.delete)).map
        FileAction.path = [("x").toList] := by
  exact ⟨rfl, rfl⟩

/-- C5, amended: the Executor produces no FileChange from a Delete action —
every output change originates from a non-Delete action (the Delete skip
at cli.py lines 178-181 is a `continue`, not an error) — so whenever no
Create/Update action shares a path with a Delete action, the output paths
avoid all Delete paths. -/
theorem c5_amended (genC genU : FileAction → Option (List Char))
    (files : List PyFile) (actions : List FileAction)
    (hdisj : ∀ a ∈ actions, a.action ≠ ActionType.delete →
             ∀ b ∈ actions, b.action = ActionType.delete → a.path ≠ b.path) :
    ∀ c ∈ cli_execute genC genU files actions,
      ∀ b ∈ actions, b.action = ActionType.delete → c.path ≠ b.path := by
  intro c hc b hb hbd
  obtain ⟨a, ha, had, hap⟩ := cli_execute_from_action genC genU files actions c hc
  rw [hap]
  exact hdisj a ha had b hb hbd

/-- C5, witness: for `[Delete x, Create y]` the only produced change is for
`y`, whose path differs from the deleted `x`. -/
theorem c5_witness :
    (⟨("y").toList, ("body").toList, none⟩ : FileChange).path ≠ ("x").toList :=
  c5_amended c5gen c5gen [] c5actions (by decide)
    ⟨("y").toList, ("body").toList, none⟩ (by decide)
    ⟨ActionType.delete, ("x").toList, ("r").toList, none⟩ (by decide) rfl

/-! ## Claim C6 -/

/-- C6: a per-action failure (completion invocation error, i.e. `None`, or
an empty response) removes exactly that action from the output set without
aborting the remaining actions; and in the concrete two-Update scenario
where the first backend call fails and the second succeeds, the final set
contains exactly the successful file's FileChange (no exception — the
functions are total). -/
theorem c6_isolation :
    (∀ (genC genU : FileAction → Option (List Char)) (files : List PyFile)
       (pre post : List FileAction) (a : FileAction),
       (generate_file_content genC genU a = none
         ∨ generate_file_content genC genU a = some []) →
       cli_execute genC genU files (pre ++ a :: post)
         = cli_execute genC genU files (pre ++ post))
    ∧ (∀ (genC genU : FileAction → Option (List Char)) (files : List PyFile)
       (u1 u2 : FileAction) (c : List Char),
       u1.action = ActionType.update → u2.action = ActionType.update →
       generate_file_content genC genU u1 = none →
       generate_file_content genC genU u2 = some c → c ≠ [] →
       cli_execute genC genU files [u1, u2]
         = [⟨u2.path, c,
             (files.find? (fun f => f.path == u2.path)).bind PyFile.sha⟩]) := by
  constructor
  · intro genC genU files pre post a hfail
    induction pre with
    | nil =>
      simp only [List.nil_append]
      by_cases hd : a.action = ActionType.delete
      · simp [cli_execute, hd]
      · rcases hfail with hf | hf
        · simp [cli_execute, hd, hf]
        · simp [cli_execute, hd, hf]
    | cons p pre' ih =>
      simp only [List.cons_append]
      by_cases hd : p.action = ActionType.delete
      · simp only [cli_execute, hd, if_true]
        exact ih
      · cases hg : generate_file_content genC genU p with
        | none => simp [cli_execute, hd, hg, ih]
        | some cc =>
          by_cases hcc : cc = []
          · simp [cli_execute, hd, hg, hcc, ih]
          · simp [cli_execute, hd, hg, hcc, ih]
  · intro genC genU files u1 u2 c hu1 hu2 hg1 hg2 hc
    have hd1 : ¬ u1.action = ActionType.delete := by rw [hu1]; simp
    have hd2 : ¬ u2.action = ActionType.delete := by rw [hu2]; simp
    simp [cli_execute, hd1, hd2, hg1, hg2, hc, hu2]

/-- C6, witness: isolation at a one-action list whose generation fails, and
the concrete two-Update scenario (`a` fails, `b` succeeds with `"B2"`). -/
theorem c6_witness :
    cli_execute c6genC c6genU [] [c6u1] = cli_execute c6genC c6genU [] []
    ∧ cli_execute c6genC c6genU c6files [c6u1, c6u2]
        = [⟨("b").toList, ("B2").toList, some (("s2").toList)⟩] :=
  ⟨c6_isolation.1 c6genC c6genU [] [] [] c6u1 (Or.inl rfl),
   (c6_isolation.2 c6genC c6genU c6files c6u1 c6u2 (("B2").toList)
     rfl rfl rfl (by decide) (by decide)).trans (by decide)⟩

/-! ## Claim C7 -/

/-- C7, counterexample.  The claim says sampling takes the first `maxFiles`
entries *with non-null content*.  The source takes the first `maxFiles`
entries of the list and then filters (`repository_files[:8]` before the
content check): with eight contentless files followed by one readable
file, the plan-context sample is empty where the claim (the spec-worded
`sample_spec`) selects the ninth file. -/
theorem c7_counterexample :
    plan_context_sample c7files = []
    ∧ sample_spec c7files 8 500 = [((("i").toList), (("x").toList))] := by
  exact ⟨rfl, rfl⟩

/-- C7, amended: context sampling is deterministic and order-preserving,
but it keeps those among the first `maxFiles` entries of the input that
have non-null, non-empty content (8/500 for plan context, 10/1000 for
new-file context), truncating each selected content to `maxCharsPerFile`
characters. -/
theorem c7_amended (files : List PyFile) :
    plan_context_sample files
      = ((files.take 8).filter truthyContent).map
          (fun f => (f.path, (f.content.getD []).take 500))
    ∧ new_file_context_sample files
      = ((files.take 10).filter truthyContent).map
          (fun f => (f.path, (f.content.getD []).take 1000))
    ∧ (∀ pr ∈ plan_context_sample files, pr.2.length ≤ 500)
    ∧ (∀ pr ∈ new_file_context_sample files, pr.2.length ≤ 1000) := by
  have h1 : plan_context_sample files
      = ((files.take 8).filter truthyContent).map
          (fun f => (f.path, (f.content.getD []).take 500)) := by
    simp only [plan_context_sample]
    exact sample_filterMap_eq 500 (files.take 8)
  have h2 : new_file_context_sample files
      = ((files.take 10).filter truthyContent).map
          (fun f => (f.path, (f.content.getD []).take 1000)) := by
    simp only [new_file_context_sample]
    exact sample_filterMap_eq 1000 (files.take 10)
  refine ⟨h1, h2, ?_, ?_⟩
  · intro pr hpr
    rw [h1] at hpr
    obtain ⟨f, _, rfl⟩ := List.mem_map.mp hpr
    simp only [List.length_take]
    exact min_le_left _ _
  · intro pr hpr
    rw [h2] at hpr
    obtain ⟨f, _, rfl⟩ := List.mem_map.mp hpr
    simp only [List.length_take]
    exact min_le_left _ _

/-- C7, witness: a sampled entry's content is truncated to the limit. -/
theorem c7_witness :
    (((("a").toList, ("x").toList)) : List Char × List Char).2.length ≤ 500 :=
  (c7_amended [⟨("a").toList, none, some (("x").toList)⟩]).2.2.1
    ((("a").toList, ("x").toList)) (by decide)

/-! ## Claim C8 -/

/-- C8: for text beginning with a fence marker, having at least two lines,
and whose last line strips to a bare fence marker, code-content extraction
removes exactly the first and last line and trims the interior; for text
containing no fence marker at all, extraction is trimming only.  Both
extraction copies (`_clean_code_response` of claude_service.py and
`_clean_response` of planning_service.py) behave identically. -/
theorem c8_extraction (text : List Char) :
    (startsFence text = true →
     2 ≤ (splitNL text).length →
     pyStrip ((splitNL text).getLastI) = fenceMarker →
     clean_code_response text
         = pyStrip (joinNL ((splitNL text).tail.dropLast))
       ∧ clean_response text
         = pyStrip (joinNL ((splitNL text).tail.dropLast)))
    ∧ (hasSub fenceMarker text = false →
     clean_code_response text = pyStrip text
       ∧ clean_response text = pyStrip text) := by
  constructor
  · intro hsf hlen hlast
    have key : clean_code_response text
        = pyStrip (joinNL ((splitNL text).tail.dropLast)) := by
      obtain ⟨x, y, t, hS⟩ : ∃ x y t, splitNL text = x :: y :: t := by
        cases hS : splitNL text with
        | nil => rw [hS] at hlen; simp at hlen
        | cons a rest =>
          cases rest with
          | nil => rw [hS] at hlen; simp at hlen
          | cons b t => exact ⟨a, b, t, rfl⟩
      have hhead : startsFence (splitNL text).headI = true :=
        startsFence_headI text hsf
      rw [hS] at hhead
      simp only [List.headI] at hhead
      have hlast' : pyStrip ((y :: t).getLastI) = fenceMarker := by
        rw [hS, getLastI_cons_cons] at hlast
        exact hlast
      simp only [clean_code_response]
      rw [hS, if_pos hsf]
      simp only [List.headI, List.tail_cons]
      rw [if_pos hhead, if_pos hlast']
    exact ⟨key, (clean_response_eq text).trans key⟩
  · intro hnf
    have hsf : startsFence text = false := by
      cases h : startsFence text
      · rfl
      · rw [startsFence_hasSub text h] at hnf; cases hnf
    have key : clean_code_response text = pyStrip text :=
      clean_of_not_fence text hsf
    exact ⟨key, (clean_response_eq text).trans key⟩

/-- C8, witness: a labeled fenced block is reduced to its trimmed interior,
and fence-free text is only trimmed. -/
theorem c8_witness :
    clean_code_response (("```json\nab\n```").toList)
      = pyStrip (joinNL ((splitNL (("```json\nab\n```").toList)).tail.dropLast))
    ∧ clean_code_response (("hello world").toList)
      = pyStrip (("hello world").toList) :=
  ⟨((c8_extraction (("```json\nab\n```").toList)).1 rfl (by decide) (by decide)).1,
   ((c8_extraction (("hello world").toList)).2 (by decide)).1⟩

/-! ## Claim C9 -/

/-- C9, counterexample.  Extraction is not idempotent: for
`"```\n```a\nfoo"` the first pass removes only the leading fence line,
leaving text that again begins with a fence marker, so a second pass
removes another line. -/
theorem c9_counterexample :
    clean_code_response (clean_code_response c9x) ≠ clean_code_response c9x
    ∧ clean_response (clean_response c9x) ≠ clean_response c9x := by
  exact ⟨by decide, by decide⟩

/-- C9, amended: extraction is idempotent on every input whose extracted
result does not itself begin with a fence marker; in particular re-running
extraction on already-clean (fence-free) text is a no-op. -/
theorem c9_amended (x : List Char)
    (h : startsFence (clean_code_response x) = false) :
    clean_code_response (clean_code_response x) = clean_code_response x
    ∧ clean_response (clean_response x) = clean_response x := by
  have h1 : clean_code_response (clean_code_response x)
      = pyStrip (clean_code_response x) := clean_of_not_fence _ h
  have h2 := clean_fixed x
  refine ⟨h1.trans h2, ?_⟩
  rw [clean_response_eq x, clean_response_eq (clean_code_response x)]
  exact h1.trans h2

/-- C9, witness: idempotence at plain text. -/
theorem c9_witness :
    clean_code_response (clean_code_response (("hello").toList))
      = clean_code_response (("hello").toList) :=
  (c9_amended (("hello").toList) (by decide)).1

/-! ## Claim C10 -/

/-- C10, counterexample.  The claim says an entry with undecodable (binary)
content is still present in the listing with `content = null`.
`get_repository_files` appends a file only when `get_file_content`
returned truthy content, so a binary blob is omitted entirely — unlike the
spec-worded `listFiles_spec`, which keeps it with null content. -/
theorem c10_counterexample :
    get_repository_files c10fetchB c10treeB = []
    ∧ listFiles_spec c10fetchB c10treeB
        = [⟨("img.png").toList, some (("s").toList), none⟩] := by
  exact ⟨rfl, rfl⟩

/-- C10, amended: the listing omits every blob whose content is
undecodable or empty; each returned entry carries non-null, non-empty
decoded content matching what the contents API yields for its path. -/
theorem c10_amended (fetch : List Char → FetchResult) (tree : List TreeItem)
    (e : RepoFile) (he : e ∈ get_repository_files fetch tree) :
    e.content ≠ [] ∧ get_file_content fetch e.path = some e.content := by
  induction tree with
  | nil => simp [get_repository_files] at he
  | cons it rest ih =>
    by_cases hb : it.typ = (['b', 'l', 'o', 'b'] : List Char)
    · cases hf : get_file_content fetch it.path with
      | none =>
        rw [show get_repository_files fetch (it :: rest)
              = get_repository_files fetch rest by
            simp [get_repository_files, hb, hf]] at he
        exact ih he
      | some c =>
        by_cases hc : c = []
        · rw [show get_repository_files fetch (it :: rest)
                = get_repository_files fetch rest by
              simp [get_repository_files, hb, hf, hc]] at he
          exact ih he
        · rw [show get_repository_files fetch (it :: rest)
                = ⟨it.path, it.sha, c⟩ :: get_repository_files fetch rest by
              simp [get_repository_files, hb, hf, hc]] at he
          rcases List.mem_cons.mp he with h | h
          · subst h
            exact ⟨hc, hf⟩
          · exact ih h
    · rw [show get_repository_files fetch (it :: rest)
            = get_repository_files fetch rest by
          simp [get_repository_files, hb]] at he
      exact ih he

/-- C10, witness: the single listed text blob carries its decoded
content. -/
theorem c10_witness :
    ((⟨("a").toList, ("s").toList, ("data").toList⟩ : RepoFile)).content ≠ []
    ∧ get_file_content c10fetchG
        ((⟨("a").toList, ("s").toList, ("data").toList⟩ : RepoFile)).path
      = some ((⟨("a").toList, ("s").toList, ("data").toList⟩ : RepoFile)).content :=
  c10_amended c10fetchG c10treeG ⟨("a").toList, ("s").toList, ("data").toList⟩
    (by decide)
